import Mathlib

/-!
Verification of the OptML neural-network-to-optimization compilation layer.

The development shallowly embeds the activation-encoding and network-building
code of the repository (src/optml/neuralnet/relu.py, src/optml/neuralnet/
keras_reader.py, src/optml/utils.py, src/pyoml/opt/neuralnet.py) and proves
or refutes the stated properties of the specification.  Machine reals are
modelled by the rationals; counts and node ids by naturals (Python ints that
may go negative are modelled by integers).
-/

namespace OptML

/-! ## Big-M ReLU constraints

Source: src/optml/neuralnet/relu.py, build_relu_mip_formulation, lines 70-74
(the same four constraints appear in src/pyoml/opt/neuralnet.py,
BigMReLU._add_activation_constraint, lines 196-216).  For a ReLU node the
builder emits, with binary indicator q:
  z >= 0, z >= zhat, z <= zhat + M*q, z <= M*(1-q).
-/

/-- Conjunction of the four Big-M constraints emitted for one ReLU node. -/
def bigMReLU (M zhat z q : ℚ) : Prop :=
  0 ≤ z ∧ zhat ≤ z ∧ z ≤ zhat + M * q ∧ z ≤ M * (1 - q)

/-- Membership of the indicator in the binary domain, q in {0,1}
(block.q = pyo.Var(..., within=pyo.Binary)). -/
def isBinaryQ (q : ℚ) : Prop := q = 0 ∨ q = 1

/-! ## Complementarity ReLU conditions

Source: src/optml/neuralnet/relu.py, build_relu_complementarity_formulation,
line 109 (and src/pyoml/opt/neuralnet.py, lines 242-247):
mpec.complements((z - zhat) >= 0, z >= 0), whose meaning after the
mpec.simple_nonlinear transform with mpec_bound = 0 is the three conditions
(z - zhat) >= 0, z >= 0, (z - zhat) * z = 0. -/

/-- The three complementarity conditions emitted for one ReLU node. -/
def complementarityReLU (zhat z : ℚ) : Prop :=
  0 ≤ z - zhat ∧ 0 ≤ z ∧ (z - zhat) * z = 0

/-! ## pyoml builders (src/pyoml/opt/neuralnet.py)

The module-level function build_neural_net (lines 8-40) emits the full-space
constraints; FullSpaceNonlinear adds z = activation(zhat) on the intermediate
nodes; ReducedSpaceNonlinear._unpack_nn_expression (lines 140-157) builds one
recursive expression per output.  Node ids: [0, n_inputs) are inputs,
[n_inputs, n_nodes) are intermediate nodes, and the output rows of w are
keyed by the shifted ids n_nodes..n_nodes+n_outputs-1 (block.OUTPUTS =
[i + n_nodes for i in outputs_set]). -/

/-- Association-list lookup mirroring Python dict access d[k]. -/
def lookupA {α β : Type} [DecidableEq α] (k : α) : List (α × β) → Option β
  | [] => none
  | p :: rest => if p.1 = k then some p.2 else lookupA k rest

/-- Network data consumed by the pyoml builders: the counts stored by
set_weights together with the weight rows w (node id to predecessor id to
coefficient) and biases b, both keyed by non-input node ids. -/
structure PNet where
  nInputs : ℕ
  nNodes : ℕ
  nOutputs : ℕ
  w : List (ℕ × List (ℕ × ℚ))
  b : List (ℕ × ℚ)

/-- block.INPUTS = list(range(n_inputs)). -/
def INPUTS (net : PNet) : List ℕ := List.range net.nInputs

/-- block.INTERMEDIATE_NODES = list(range(n_inputs, n_nodes)). -/
def INTERMEDIATE_NODES (net : PNet) : List ℕ :=
  List.range' net.nInputs (net.nNodes - net.nInputs)

/-- block.OUTPUTS = [i + n_nodes for i in outputs_set]. -/
def OUTPUTS (net : PNet) : List ℕ :=
  (List.range net.nOutputs).map (fun i => i + net.nNodes)

/-- Weight row w[i] of a node (empty when the node has no row). -/
def wRow (net : PNet) (i : ℕ) : List (ℕ × ℚ) := (lookupA i net.w).getD []

/-- Bias b[i] of a node (0 when the node has no entry). -/
def bVal (net : PNet) (i : ℕ) : ℚ := (lookupA i net.b).getD 0

/-- The weighted sum sum(w[i][j]*z[j] for j in w[i]). -/
def affineSum (row : List (ℕ × ℚ)) (z : ℕ → ℚ) : ℚ :=
  row.foldr (fun jc acc => jc.2 * z jc.1 + acc) 0

/-- Pre-activation expression sum(w[i][j]*z[j] for j in w[i]) + b[i]. -/
def preAct (net : PNet) (z : ℕ → ℚ) (i : ℕ) : ℚ :=
  affineSum (wRow net i) z + bVal net i

/-- Satisfaction of the constraint system emitted by build_neural_net plus
FullSpaceNonlinear._add_activation_constraint: input equalities z[i] = x[i],
pre-activation rows zhat[i] = weighted sum + bias, activation rows
z[i] = act(zhat[i]) on the intermediate nodes, and output rows
y[o] = weighted sum + bias. -/
def FullSpaceSat (net : PNet) (act : ℚ → ℚ) (x y z zhat : ℕ → ℚ) : Prop :=
  (∀ i ∈ INPUTS net, z i = x i) ∧
  (∀ i ∈ INTERMEDIATE_NODES net, zhat i = preAct net z i) ∧
  (∀ i ∈ INTERMEDIATE_NODES net, z i = act (zhat i)) ∧
  (∀ o ∈ OUTPUTS net, y o = preAct net z o)

instance (net : PNet) (act : ℚ → ℚ) (x y z zhat : ℕ → ℚ) :
    Decidable (FullSpaceSat net act x y z zhat) := by
  unfold FullSpaceSat; infer_instance

/-- Forward post-activation value of a node, obtained by substituting through
the full-space constraints: an input node takes the bound input value, any
other node takes act(weighted sum of predecessor values + bias).  The fuel
bounds the recursion depth; on a layered network any fuel above the node id
is enough. -/
def forwardZ (net : PNet) (act : ℚ → ℚ) (x : ℕ → ℚ) : ℕ → ℕ → ℚ
  | 0, _ => 0
  | fuel + 1, i =>
    if i < net.nInputs then x i
    else act (affineSum (wRow net i) (forwardZ net act x fuel) + bVal net i)

/-- Final value of an output node under forward substitution.  Output rows
carry no activation in build_neural_net and output ids are outside the range
of the activation constraint, so output nodes are linear and this affine
value is the node's final (post-activation) value. -/
def outputNodeValue (net : PNet) (act : ℚ → ℚ) (x : ℕ → ℚ) (fuel o : ℕ) : ℚ :=
  affineSum (wRow net o) (forwardZ net act x fuel) + bVal net o

/-- Layered-network invariant of the data model: every predecessor id in a
weight row was defined before its node and is a proper node (below nNodes). -/
def Layered (net : PNet) : Prop :=
  ∀ p ∈ net.w, ∀ jc ∈ p.2, jc.1 < p.1 ∧ jc.1 < net.nNodes

instance (net : PNet) : Decidable (Layered net) := by
  unfold Layered; infer_instance

/-- Value of the expression built by ReducedSpaceNonlinear's
_unpack_nn_expression for node i: a predecessor with a row in self.w
recursively contributes its expression, an input predecessor contributes the
bound input symbol; an output node sums raw contributions
w[i][j]*z_from[j], any other node sums activation-wrapped contributions
w[i][j]*activation(z_from[j]), plus the bias. -/
def unpackVal (net : PNet) (act : ℚ → ℚ) (x : ℕ → ℚ) : ℕ → ℕ → ℚ
  | 0, _ => 0
  | fuel + 1, i =>
    let zfrom : ℕ → ℚ := fun j =>
      if (lookupA j net.w).isSome then unpackVal net act x fuel j else x j
    if i ∈ OUTPUTS net then
      (wRow net i).foldr (fun jc acc => jc.2 * zfrom jc.1 + acc) 0 + bVal net i
    else
      (wRow net i).foldr (fun jc acc => jc.2 * act (zfrom jc.1) + acc) 0 + bVal net i

/-- Symbolic expression trees standing for the Pyomo expressions the
reduced-space recursion builds; the act constructor marks an application of
the builder's activation function. -/
inductive NExpr where
  | input : ℕ → NExpr
  | cst : ℚ → NExpr
  | add : NExpr → NExpr → NExpr
  | mul : ℚ → NExpr → NExpr
  | act : NExpr → NExpr
deriving DecidableEq

/-- Symbolic form of _unpack_nn_expression, mirroring unpackVal but keeping
the expression structure so activation wrapping is observable. -/
def unpackE (net : PNet) : ℕ → ℕ → NExpr
  | 0, _ => NExpr.cst 0
  | fuel + 1, i =>
    let zfrom : ℕ → NExpr := fun j =>
      if (lookupA j net.w).isSome then unpackE net fuel j else NExpr.input j
    if i ∈ OUTPUTS net then
      (wRow net i).foldr (fun jc acc => NExpr.add (NExpr.mul jc.2 (zfrom jc.1)) acc)
        (NExpr.cst (bVal net i))
    else
      (wRow net i).foldr (fun jc acc => NExpr.add (NExpr.mul jc.2 (NExpr.act (zfrom jc.1))) acc)
        (NExpr.cst (bVal net i))

/-- The z_from expression substituted for predecessor j: the recursively
built expression when j has a row in self.w, the bound input symbol
otherwise. -/
def zfromE (net : PNet) (fuel j : ℕ) : NExpr :=
  if (lookupA j net.w).isSome then unpackE net fuel j else NExpr.input j

/-- The summand the consuming node i forms from predecessor entry jc given
the map zfrom of substituted predecessor expressions: w[i][j]*z_from[j] when
i is an output node, w[i][j]*activation(z_from[j]) otherwise. -/
def predTermWith (net : PNet) (zfrom : ℕ → NExpr) (i : ℕ) (jc : ℕ × ℚ) : NExpr :=
  if i ∈ OUTPUTS net then NExpr.mul jc.2 (zfrom jc.1)
  else NExpr.mul jc.2 (NExpr.act (zfrom jc.1))

/-! ## NeuralNetInterface state and weight validation
(src/pyoml/opt/neuralnet.py, lines 59-103) -/

/-- Mutable state of a NeuralNetInterface builder: the dimension counts and
the weight and bias dictionaries.  Counts are Python ints, modelled as
integers. -/
structure NNState where
  num_nodes : ℤ
  num_inputs : ℤ
  num_outputs : ℤ
  w : List (ℕ × List (ℕ × ℚ))
  b : List (ℕ × ℚ)

/-- NeuralNetInterface.__init__: all counts 0, empty dictionaries. -/
def freshNNState : NNState :=
  { num_nodes := 0, num_inputs := 0, num_outputs := 0, w := [], b := [] }

/-- Success test for the result of a Python call modelled in Except; an
error value carries the raised exception's description. -/
def isOkE {ε α : Type} : Except ε α → Bool
  | Except.ok _ => true
  | Except.error _ => false

/-- NeuralNetInterface.set_weights: validates n_nodes >= n_inputs and
len(w) == len(b) == n_nodes + n_outputs - n_inputs (assert statements in the
source, ValidationError in the specification's taxonomy), then stores w, b
and the counts, with num_nodes recomputed as len(w) - n_outputs + n_inputs.
The prior builder state is fully overwritten. -/
def set_weights (_s : NNState) (w : List (ℕ × List (ℕ × ℚ))) (b : List (ℕ × ℚ))
    (n_inputs n_outputs n_nodes : ℤ) : Except String NNState :=
  if ¬ (n_inputs ≤ n_nodes) then
    Except.error "AssertionError: n_nodes >= n_inputs"
  else if ¬ ((w.length : ℤ) = n_nodes + n_outputs - n_inputs) then
    Except.error "AssertionError: len(w) == n_nodes + n_outputs - n_inputs"
  else if ¬ ((b.length : ℤ) = n_nodes + n_outputs - n_inputs) then
    Except.error "AssertionError: len(b) == n_nodes + n_outputs - n_inputs"
  else Except.ok
    { num_nodes := (w.length : ℤ) - n_outputs + n_inputs
      num_inputs := n_inputs
      num_outputs := n_outputs
      w := w, b := b }

/-! ## Keras import boundary (src/optml/neuralnet/keras_reader.py) -/

/-- A dense keras layer as seen through the import boundary: a 2-D weight
matrix (rows indexed by layer inputs, columns by produced nodes), a bias
vector and an activation name. -/
structure KLayer where
  weights : List (List ℚ)
  biases : List ℚ
  activation : String

instance : Inhabited KLayer := ⟨⟨[], [], ""⟩⟩

/-- First component of weights.shape: the number of layer inputs. -/
def nLayerInputs (l : KLayer) : ℕ := l.weights.length

/-- Second component of weights.shape: the number of produced nodes. -/
def nLayerNodes (l : KLayer) : ℕ := (l.weights.headI).length

/-- Per-node record written by the importer loop: the node's global id, its
incoming weights keyed by predecessor id, its bias, its activation name and
the sibling ids of its originating layer (its layer_node_ids value). -/
structure NodeEntry where
  nodeId : ℕ
  inW : List (ℕ × ℚ)
  bias : ℚ
  act : String
  layerNodes : List ℕ

/-- Entries one layer contributes given the running node and layer offsets
(the inner loop body of load_keras_sequential). -/
def layerEntries (nodeOff layerOff : ℕ) (l : KLayer) : List NodeEntry :=
  (List.range (nLayerNodes l)).map fun i =>
    { nodeId := nodeOff + i
      inW := (List.range (nLayerInputs l)).map
        fun j => (j + layerOff, (l.weights.getD j []).getD i 0)
      bias := l.biases.getD i 0
      act := l.activation
      layerNodes := List.range' nodeOff (nLayerNodes l) }

/-- The importer's layer walk: returns the final node-id offset, the final
layer offset, the per-node entries (the w, b, a and layer_node_ids
dictionaries share this key sequence; keys are distinct because the node
offset strictly increases, so the list length is the dict size len(a)) and
the per-layer produced-id lists (the loop's layer_nodes value of each layer,
in order). -/
def importLoop : ℕ → ℕ → List KLayer → ℕ × ℕ × List NodeEntry × List (List ℕ)
  | nodeOff, layerOff, [] => (nodeOff, layerOff, [], [])
  | nodeOff, layerOff, l :: rest =>
    let r := importLoop (nodeOff + nLayerNodes l) (layerOff + nLayerInputs l) rest
    (r.1, r.2.1, layerEntries nodeOff layerOff l ++ r.2.2.1,
      List.range' nodeOff (nLayerNodes l) :: r.2.2.2)

/-- Modelled from the spec: NetworkDefinition (src/optml/neuralnet/
network_definition.py is not under src/) is the immutable value object that
stores the importer's outputs; only the stored dimension fields and the
per-node entries matter here. -/
structure NetworkDefinition where
  n_inputs : ℕ
  n_hidden : ℤ
  n_outputs : ℕ
  entries : List NodeEntry

/-- load_keras_sequential: n_inputs = len(nn.layers[0].get_weights()[0]),
n_outputs = len(nn.layers[-1].get_weights()[1]), global ids assigned
sequentially from n_inputs by the layer walk, n_nodes = len(a) + n_inputs,
n_hidden = n_nodes - n_inputs - n_outputs. -/
def load_keras_sequential (layers : List KLayer) : NetworkDefinition :=
  let n_inputs := nLayerInputs layers.headI
  let n_outputs := (layers.getLastD default).biases.length
  let entries := (importLoop n_inputs 0 layers).2.2.1
  let n_nodes := entries.length + n_inputs
  { n_inputs := n_inputs
    n_hidden := (n_nodes : ℤ) - n_inputs - n_outputs
    n_outputs := n_outputs
    entries := entries }

/-- Sum of all layer output sizes. -/
def totalLayerNodes (layers : List KLayer) : ℕ := (layers.map nLayerNodes).sum

/-- The produced-id list of the final layer: the last layer_nodes value of
the importer loop. -/
def lastLayerIds (layers : List KLayer) : List ℕ :=
  (importLoop (nLayerInputs layers.headI) 0 layers).2.2.2.getLastD []

/-- Modelled from the spec: _keras_sequential_to_dict (pyoml/opt/utils.py
is not under src/) unpacks a keras Sequential model into per-node
dictionaries of weights and biases, one entry per produced node, walking
the layers like the importer; only the dictionaries' sizes matter to the
caller modelled below. -/
def kerasSequentialToDict (layers : List KLayer) :
    List (ℕ × List (ℕ × ℚ)) × List (ℕ × ℚ) :=
  let entries := (importLoop (nLayerInputs layers.headI) 0 layers).2.2.1
  (entries.map fun e => (e.nodeId, e.inW), entries.map fun e => (e.nodeId, e.bias))

/-- len(keras_model.get_weights()[0]): the row count of the first layer's
weight matrix, the keras model's input count. -/
def kerasFirstWeightLen (layers : List KLayer) : ℕ := (layers.headI).weights.length

/-- len(keras_model.get_weights()[-1]): the length of the last layer's bias
vector, the keras model's output count. -/
def kerasLastWeightLen (layers : List KLayer) : ℕ :=
  (layers.getLastD default).biases.length

/-- NeuralNetInterface.set_weights_keras: computes its n_nodes argument from
the builder's current counts as len(w) - self.num_outputs + self.num_inputs,
then delegates to set_weights. -/
def set_weights_keras (s : NNState) (layers : List KLayer) : Except String NNState :=
  let wb := kerasSequentialToDict layers
  set_weights s wb.1 wb.2 (kerasFirstWeightLen layers) (kerasLastWeightLen layers)
    ((wb.1.length : ℤ) - s.num_outputs + s.num_inputs)

/-! ## ReLU builder constructors (src/pyoml/opt/neuralnet.py,
lines 185-190 and 235-240) -/

/-- BigMReLU.__init__: stores M and leaky_alpha on the builder, then raises
NotImplementedError when leaky_alpha is not None; the constructor receives
no formulation model, so no model state is touched either way. -/
def bigMReLU_init (bigm : ℚ) (leaky_alpha : Option ℚ) :
    Except String (NNState × ℚ × Option ℚ) :=
  match leaky_alpha with
  | some _ => Except.error "NotImplementedError: LeakyReLU is not yet implemented"
  | none => Except.ok (freshNNState, bigm, none)

/-- ComplementarityReLU.__init__: raises NotImplementedError when
leaky_alpha is not None, otherwise stores leaky_alpha and the transform
name. -/
def complementarityReLU_init (leaky_alpha : Option ℚ) (transform : String) :
    Except String (NNState × Option ℚ × String) :=
  match leaky_alpha with
  | some _ => Except.error "NotImplementedError: LeakyReLU is not yet implemented"
  | none => Except.ok (freshNNState, none, transform)

/-! ## Activation classification in the two optml ReLU builders
(src/optml/neuralnet/relu.py and src/optml/utils.py) -/

/-- An entry of the activations dictionary as the classifiers read it: the
key may be absent, hold None, an activation-name string, or a
caller-supplied function of the node zhat and the sibling zhats. -/
inductive ActEntry where
  | absent : ActEntry
  | noneV : ActEntry
  | strV : String → ActEntry
  | fnV : (ℚ → List ℚ → ℚ) → ActEntry

/-- The three-way partition both ReLU builders perform on candidate
nodes. -/
inductive NodeClass where
  | linear | relu | other
deriving DecidableEq

/-- Shared classification: linear when the key is absent, holds None or
'linear'; relu when 'relu'; other otherwise (any other string, or a
callable). -/
def classifyActivation : ActEntry → NodeClass
  | ActEntry.absent => NodeClass.linear
  | ActEntry.noneV => NodeClass.linear
  | ActEntry.strV s =>
    if s = "linear" then NodeClass.linear
    else if s = "relu" then NodeClass.relu
    else NodeClass.other
  | ActEntry.fnV _ => NodeClass.other

/-- Values of the pyomo_activations dictionary (src/optml/utils.py): tags
for the closed-form expression builders (their transcendental float bodies
play no role in the control-flow and constraint-shape claims below); custom
carries a caller-supplied function. -/
inductive AFun where
  | tanh | sigmoid | softplus | softmax
  | custom : (ℚ → List ℚ → ℚ) → AFun

/-- The dictionary pyomo_activations with keys tanh, sigmoid, softplus,
softmax. -/
def pyomo_activations : List (String × AFun) :=
  [("tanh", AFun.tanh), ("sigmoid", AFun.sigmoid),
   ("softplus", AFun.softplus), ("softmax", AFun.softmax)]

/-- Constraints the optml ReLU builders emit per node: z = zhat for linear
nodes; the four big-M rows with a binary indicator (their algebra is
bigMReLU above) for relu nodes of the MIP builder; the complementarity pair
(its algebra is complementarityReLU above) for relu nodes of the MPEC
builder; and the closed-form z = f(zhat, sibling zhats) for nonlinear
nodes. -/
inductive NNConstraint where
  | linearEq : ℕ → NNConstraint
  | bigM : ℕ → NNConstraint
  | complementarity : ℕ → NNConstraint
  | nonlinearEq : ℕ → AFun → List ℕ → NNConstraint

/-- Classification loop of build_relu_mip_formulation: collects linear and
relu nodes and raises ValueError at any node whose activation is neither. -/
def classifyLoopStrict (acts : ℕ → ActEntry) :
    List ℕ → Except String (List ℕ × List ℕ)
  | [] => Except.ok ([], [])
  | i :: rest =>
    match classifyActivation (acts i) with
    | NodeClass.linear =>
      match classifyLoopStrict acts rest with
      | Except.error e => Except.error e
      | Except.ok lr => Except.ok (i :: lr.1, lr.2)
    | NodeClass.relu =>
      match classifyLoopStrict acts rest with
      | Except.error e => Except.error e
      | Except.ok lr => Except.ok (lr.1, i :: lr.2)
    | NodeClass.other =>
      Except.error "ValueError: Activation function not supported in the ReLU formulation"

/-- Activation part of build_relu_mip_formulation: classify the candidate
nodes, then emit the four big-M rows per relu node and z = zhat per linear
node. -/
def build_relu_mip_formulation (acts : ℕ → ActEntry) (nodes : List ℕ) :
    Except String (List NNConstraint) :=
  match classifyLoopStrict acts nodes with
  | Except.error e => Except.error e
  | Except.ok lr =>
    Except.ok (lr.2.map NNConstraint.bigM ++ lr.1.map NNConstraint.linearEq)

/-- Classification loop of build_relu_complementarity_formulation: linear,
relu and nonlinear nodes, never raising. -/
def classifyLoop3 (acts : ℕ → ActEntry) : List ℕ → List ℕ × List ℕ × List ℕ
  | [] => ([], [], [])
  | i :: rest =>
    let r := classifyLoop3 acts rest
    match classifyActivation (acts i) with
    | NodeClass.linear => (i :: r.1, r.2.1, r.2.2)
    | NodeClass.relu => (r.1, i :: r.2.1, r.2.2)
    | NodeClass.other => (r.1, r.2.1, i :: r.2.2)

/-- Nonlinear-activation encoding of one node: layer_zhat is the sibling
list when the node has layer data and empty otherwise; a string activation
is looked up in pyomo_activations (a missing name raises KeyError), a
callable is used directly.  Linear and relu classes never reach this
encoder. -/
def nonlinearActivationConstraint (acts : ℕ → ActEntry)
    (layer_node_ids : ℕ → Option (List ℕ)) (i : ℕ) : Except String NNConstraint :=
  let layer_zhat := (layer_node_ids i).getD []
  match acts i with
  | ActEntry.strV s =>
    match lookupA s pyomo_activations with
    | some f => Except.ok (NNConstraint.nonlinearEq i f layer_zhat)
    | none => Except.error ("KeyError: " ++ s)
  | ActEntry.fnV f => Except.ok (NNConstraint.nonlinearEq i (AFun.custom f) layer_zhat)
  | ActEntry.absent => Except.error "unreachable: linear node"
  | ActEntry.noneV => Except.error "unreachable: linear node"

/-- Error-propagating map over a list, raising at the first failing
element. -/
def mapME {α β : Type} (f : α → Except String β) : List α → Except String (List β)
  | [] => Except.ok []
  | a :: rest =>
    match f a with
    | Except.error e => Except.error e
    | Except.ok b =>
      match mapME f rest with
      | Except.error e => Except.error e
      | Except.ok bs => Except.ok (b :: bs)

/-- Activation part of build_relu_complementarity_formulation: three-way
classification, a complementarity pair per relu node, z = zhat per linear
node, and the nonlinear encoding per remaining node. -/
def build_relu_complementarity_formulation (acts : ℕ → ActEntry)
    (layer_node_ids : ℕ → Option (List ℕ)) (nodes : List ℕ) :
    Except String (List NNConstraint) :=
  let c := classifyLoop3 acts nodes
  match mapME (nonlinearActivationConstraint acts layer_node_ids) c.2.2 with
  | Except.error e => Except.error e
  | Except.ok ncs =>
    Except.ok (c.2.1.map NNConstraint.complementarity
      ++ c.1.map NNConstraint.linearEq ++ ncs)

/-- Per-node raise condition of the complementarity builder: an activation
string that is neither 'linear' nor 'relu' nor a pyomo_activations key. -/
def compNodeRaises (acts : ℕ → ActEntry) (i : ℕ) : Bool :=
  match acts i with
  | ActEntry.strV s =>
    if s = "linear" then false
    else if s = "relu" then false
    else (lookupA s pyomo_activations).isNone
  | _ => false

/-! Concrete instances used by counterexamples and witnesses. -/

/-- Activations dictionary mapping node 1 to the unsupported name gelu. -/
def actsGelu : ℕ → ActEntry :=
  fun i => if i = 1 then ActEntry.strV "gelu" else ActEntry.absent

/-- Empty layer_node_ids mapping. -/
def noLayerIds : ℕ → Option (List ℕ) := fun _ => none

/-- Activations dictionary with node 1 relu, node 2 tanh (a supported
nonlinear name), node 3 linear by absence. -/
def actsMix : ℕ → ActEntry :=
  fun i =>
    if i = 1 then ActEntry.strV "relu"
    else if i = 2 then ActEntry.strV "tanh"
    else ActEntry.absent

/-- One dense layer of shape (3, 2) with activation linear (Scenario D). -/
def layersD : List KLayer :=
  [{ weights := [[1, 2], [3, 4], [5, 6]], biases := [7, 8], activation := "linear" }]

/-- A square single dense layer of shape (2, 2) used by the
set_weights_keras witness. -/
def layersSquare : List KLayer :=
  [{ weights := [[1, 2], [3, 4]], biases := [5, 6], activation := "tanh" }]

/-! Concrete instances for the pyoml builders. -/

/-- Square activation, a caller-supplied scalar function (the builders accept
any activation; the default pyo.tanh is transcendental, so a polynomial
custom activation keeps evaluation exact). -/
def sqAct : ℚ → ℚ := fun t => t * t

/-- Constant-one input binding. -/
def oneInput : ℕ → ℚ := fun _ => 1

/-- One input (id 0), one intermediate node (id 1, weight 2 on the input,
bias 0), one output (shifted id 2, weight 1 on node 1, bias 0). -/
def netC3 : PNet :=
  { nInputs := 1, nNodes := 2, nOutputs := 1
    w := [(1, [(0, 2)]), (2, [(1, 1)])]
    b := [(1, 0), (2, 0)] }

/-- One input (id 0), one intermediate node (id 1), two outputs (shifted ids
2 and 3); output 3 consumes output 2 with weight 5. -/
def netC7 : PNet :=
  { nInputs := 1, nNodes := 2, nOutputs := 2
    w := [(1, [(0, 1)]), (2, [(1, 1)]), (3, [(2, 5)])]
    b := [(1, 0), (2, 0), (3, 0)] }

/-- One input, one intermediate node (weight 2, bias 1), one output
(weight 3 on node 1, bias 0). -/
def netC6 : PNet :=
  { nInputs := 1, nNodes := 2, nOutputs := 1
    w := [(1, [(0, 2)]), (2, [(1, 3)])]
    b := [(1, 1), (2, 0)] }

/-- A satisfying full-space assignment for netC6 with the square activation
and input 1: z0 = 1, zhat1 = 3, z1 = 9, y2 = 27. -/
def zC6 : ℕ → ℚ := fun i => if i = 0 then 1 else 9

/-- Pre-activation assignment for netC6. -/
def zhatC6 : ℕ → ℚ := fun _ => 3

/-- Output assignment for netC6. -/
def yC6 : ℕ → ℚ := fun _ => 27

end OptML

namespace OptML

/-- C1: for every ReLU node the Big-M formulation emits z >= 0, z >= zhat,
z <= zhat + M*q, z <= M*(1-q) with q binary (definition bigMReLU), and for
every zhat strictly between -M and M the set of (z, zhat) pairs satisfiable
by some q in {0,1} is exactly the graph of z = max(0, zhat). -/
theorem bigM_relu_projection_exact (M zhat z : ℚ)
    (hlo : -M < zhat) (hhi : zhat < M) :
    (∃ q, isBinaryQ q ∧ bigMReLU M zhat z q) ↔ z = max 0 zhat := by
  constructor
  · rintro ⟨q, hq, hz0, hzh, hpos, hneg⟩
    rcases hq with h0 | h1
    · subst h0
      have hzz : z = zhat := le_antisymm (by linarith) hzh
      subst hzz
      exact (max_eq_right hz0).symm
    · subst h1
      have hz : z = 0 := le_antisymm (by linarith) hz0
      subst hz
      have : zhat ≤ 0 := hzh
      exact (max_eq_left this).symm
  · intro hz
    rcases le_or_lt 0 zhat with hpos | hneg
    · refine ⟨0, Or.inl rfl, ?_, ?_, ?_, ?_⟩
      · rw [hz]; exact le_max_left 0 zhat
      · rw [hz]; exact le_max_right 0 zhat
      · rw [hz, max_eq_right hpos]; linarith
      · rw [hz, max_eq_right hpos]; linarith
    · have hmax : max 0 zhat = 0 := max_eq_left hneg.le
      refine ⟨1, Or.inr rfl, ?_, ?_, ?_, ?_⟩
      · rw [hz, hmax]
      · rw [hz, hmax]; exact hneg.le
      · rw [hz, hmax]; linarith
      · rw [hz, hmax]; linarith

/-- Witness for C1: at M = 10, zhat = 3 (inside (-M, M)) the equivalence
instantiates and together with it the hypotheses hold. -/
theorem bigM_relu_projection_exact_witness :
    (∃ q, isBinaryQ q ∧ bigMReLU 10 3 3 q) ↔ (3 : ℚ) = max 0 3 :=
  bigM_relu_projection_exact 10 3 3 (by norm_num) (by norm_num)

/-- C2: any point (z, zhat) satisfying the three complementarity conditions
(z - zhat) >= 0, z >= 0, (z - zhat)*z = 0 has z = max(0, zhat) exactly, for
every zhat (hence in particular for zhat in {-5,-1,0,1,5}). -/
theorem complementarity_relu_exact (zhat z : ℚ)
    (h : complementarityReLU zhat z) : z = max 0 zhat := by
  obtain ⟨h1, h2, h3⟩ := h
  rcases mul_eq_zero.mp h3 with hz | hz
  · have hzz : z = zhat := by linarith
    subst hzz
    exact (max_eq_right h2).symm
  · subst hz
    have : zhat ≤ 0 := by linarith
    exact (max_eq_left this).symm

/-- Witness for C2: the sample point zhat = -5, z = 0 satisfies the three
conditions and the theorem applies to it. -/
theorem complementarity_relu_exact_witness : (0 : ℚ) = max 0 (-5) :=
  complementarity_relu_exact (-5) 0 (by norm_num [complementarityReLU])

/-! Helper lemmas about the pyoml embedding. -/

theorem lookupA_mem {α β : Type} [DecidableEq α] {k : α} {v : β}
    (l : List (α × β)) (h : lookupA k l = some v) : (k, v) ∈ l := by
  induction l with
  | nil => simp [lookupA] at h
  | cons p rest ih =>
    rw [lookupA] at h
    by_cases hp : p.1 = k
    · rw [if_pos hp] at h
      have hv : p.2 = v := Option.some_injective _ h
      have : p = (k, v) := by
        cases p with
        | mk a b => simp only [Prod.mk.injEq]; exact ⟨hp, hv⟩
      rw [← this]
      exact List.mem_cons_self p rest
    · rw [if_neg hp] at h
      exact List.mem_cons_of_mem _ (ih h)

theorem affineSum_congr (row : List (ℕ × ℚ)) (z1 z2 : ℕ → ℚ)
    (h : ∀ jc ∈ row, z1 jc.1 = z2 jc.1) :
    affineSum row z1 = affineSum row z2 := by
  induction row with
  | nil => rfl
  | cons p rest ih =>
    simp only [affineSum, List.foldr_cons] at ih ⊢
    rw [h p (List.mem_cons_self p rest),
      ih (fun jc hjc => h jc (List.mem_cons_of_mem _ hjc))]

theorem mem_OUTPUTS {net : PNet} {i : ℕ} :
    i ∈ OUTPUTS net ↔ net.nNodes ≤ i ∧ i < net.nNodes + net.nOutputs := by
  simp only [OUTPUTS, List.mem_map, List.mem_range]
  constructor
  · rintro ⟨a, ha, rfl⟩; omega
  · rintro ⟨h1, h2⟩; exact ⟨i - net.nNodes, by omega, by omega⟩

theorem mem_INTERMEDIATE {net : PNet} {i : ℕ}
    (h1 : net.nInputs ≤ i) (h2 : i < net.nNodes) :
    i ∈ INTERMEDIATE_NODES net := by
  simp only [INTERMEDIATE_NODES, List.mem_range'_1]
  omega

/-- On a layered network, any assignment satisfying the full-space
constraints pins every node value to its forward-substituted value. -/
theorem forwardZ_eq (net : PNet) (act : ℚ → ℚ) (x y z zhat : ℕ → ℚ)
    (hsat : FullSpaceSat net act x y z zhat) (hlay : Layered net) :
    ∀ fuel i, i < net.nNodes → i < fuel → forwardZ net act x fuel i = z i := by
  intro fuel
  induction fuel with
  | zero => intro i _ h; omega
  | succ fuel ih =>
    intro i hi hif
    rw [forwardZ]
    by_cases hin : i < net.nInputs
    · rw [if_pos hin]
      exact (hsat.1 i (by simpa [INPUTS, List.mem_range] using hin)).symm
    · rw [if_neg hin]
      push_neg at hin
      have him : i ∈ INTERMEDIATE_NODES net := mem_INTERMEDIATE hin hi
      have hrow : affineSum (wRow net i) (forwardZ net act x fuel)
          = affineSum (wRow net i) z := by
        apply affineSum_congr
        intro jc hjc
        cases hw : lookupA i net.w with
        | none => rw [wRow, hw] at hjc; simp at hjc
        | some row =>
          rw [wRow, hw] at hjc
          simp only [Option.getD_some] at hjc
          have hmem := lookupA_mem _ hw
          have hjlt := hlay _ hmem jc hjc
          exact ih jc.1 hjlt.2 (by omega)
      rw [hrow]
      have h2 := hsat.2.1 i him
      rw [preAct] at h2
      rw [← h2]
      exact (hsat.2.2.1 i him).symm

/-- C6: in the full-space formulation, for every output node the emitted
constraint equates the bound external output symbol with the node's final
post-activation value: on a layered network any satisfying assignment has
y[o] equal to the output node's forward-substituted final value (output
nodes carry no activation row, so they are linear and that affine value is
their post-activation value). -/
theorem full_space_output_equals_node_value (net : PNet) (act : ℚ → ℚ)
    (x y z zhat : ℕ → ℚ) (hsat : FullSpaceSat net act x y z zhat)
    (hlay : Layered net) :
    ∀ o ∈ OUTPUTS net, ∀ fuel, net.nNodes ≤ fuel →
      y o = outputNodeValue net act x fuel o := by
  intro o ho fuel hfuel
  rw [hsat.2.2.2 o ho, preAct, outputNodeValue]
  congr 1
  apply affineSum_congr
  intro jc hjc
  cases hw : lookupA o net.w with
  | none => rw [wRow, hw] at hjc; simp at hjc
  | some row =>
    rw [wRow, hw] at hjc
    simp only [Option.getD_some] at hjc
    have hmem := lookupA_mem _ hw
    have hjlt := hlay _ hmem jc hjc
    exact (forwardZ_eq net act x y z zhat hsat hlay fuel jc.1 hjlt.2 (by omega)).symm

/-- Witness for C6: on netC6 with the square activation and input 1, the
explicit satisfying assignment has y[2] = 27, which the theorem equates with
the output node's forward value. -/
theorem full_space_output_equals_node_value_witness :
    yC6 2 = outputNodeValue netC6 sqAct oneInput 2 2 :=
  full_space_output_equals_node_value netC6 sqAct oneInput yC6 zC6 zhatC6
    (by
      norm_num [FullSpaceSat, INPUTS, INTERMEDIATE_NODES, OUTPUTS, preAct, affineSum,
        wRow, bVal, lookupA, netC6, sqAct, oneInput, yC6, zC6, zhatC6,
        List.mem_range, List.mem_range'_1, List.mem_map])
    (by decide) 2 (by decide) 2 (by decide)

/-- C3 fails on the code: on the network netC3 (input 0, intermediate node 1
with weight 2 and bias 0, output 2 with weight 1 and bias 0) with the square
activation and input value 1, the reduced-space builder's recursively
substituted expression evaluates to 2 while forward substitution through the
full-space constraints gives 4; the difference exceeds the 1e-9 tolerance. -/
theorem reduced_space_full_space_mismatch :
    unpackVal netC3 sqAct oneInput 3 2 = 2 ∧
    outputNodeValue netC3 sqAct oneInput 3 2 = 4 ∧
    ¬ |unpackVal netC3 sqAct oneInput 3 2
        - outputNodeValue netC3 sqAct oneInput 3 2| ≤ 1 / 1000000000 := by
  have h1 : unpackVal netC3 sqAct oneInput 3 2 = 2 := by
    norm_num [unpackVal, netC3, sqAct, oneInput, OUTPUTS, wRow, bVal, lookupA,
      affineSum, List.mem_map, List.mem_range]
  have h2 : outputNodeValue netC3 sqAct oneInput 3 2 = 4 := by
    norm_num [outputNodeValue, forwardZ, netC3, sqAct, oneInput, wRow, bVal,
      lookupA, affineSum]
  refine ⟨h1, h2, ?_⟩
  rw [h1, h2]
  norm_num

/-- The reduced-space recursion at positive fuel is the fold of the
per-predecessor summands predTermWith over the node's weight row. -/
theorem unpackE_succ (net : PNet) (fuel i : ℕ) :
    unpackE net (fuel + 1) i =
      (wRow net i).foldr
        (fun jc acc => NExpr.add (predTermWith net (zfromE net fuel) i jc) acc)
        (NExpr.cst (bVal net i)) := by
  by_cases hi : i ∈ OUTPUTS net
  · simp [unpackE, zfromE, predTermWith, hi]
  · simp [unpackE, zfromE, predTermWith, hi]

/-- C7: in the reduced-space builder, whenever an output node's expression is
substituted as a predecessor into another node's expression, only the output
node's raw affine sum is used: under the data-model invariants (weight rows
keyed below nNodes + nOutputs, predecessors defined before their node), the
consuming node is itself an output node, so the summand it forms is
w[i][j] * z_from[j] with no activation applied. -/
theorem reduced_space_output_predecessor_raw (net : PNet)
    (hdom : ∀ p ∈ net.w, p.1 < net.nNodes + net.nOutputs)
    (hlay : ∀ p ∈ net.w, ∀ jc ∈ p.2, jc.1 < p.1) :
    (∀ fuel i, unpackE net (fuel + 1) i =
      (wRow net i).foldr
        (fun jc acc => NExpr.add (predTermWith net (zfromE net fuel) i jc) acc)
        (NExpr.cst (bVal net i))) ∧
    (∀ i row, lookupA i net.w = some row → ∀ jc ∈ row, jc.1 ∈ OUTPUTS net →
      i ∈ OUTPUTS net ∧
      ∀ zfrom : ℕ → NExpr,
        predTermWith net zfrom i jc = NExpr.mul jc.2 (zfrom jc.1)) := by
  refine ⟨fun fuel i => unpackE_succ net fuel i, ?_⟩
  intro i row hrow jc hjc hout
  have hmem := lookupA_mem _ hrow
  have hji : jc.1 < i := hlay _ hmem jc hjc
  have hio : i ∈ OUTPUTS net := by
    rw [mem_OUTPUTS] at hout ⊢
    exact ⟨by omega, hdom _ hmem⟩
  exact ⟨hio, fun zfrom => by rw [predTermWith, if_pos hio]⟩

/-- Witness for C7: on netC7, output node 2 appears as a predecessor of
output node 3 with weight 5 and its substituted expression is used raw. -/
theorem reduced_space_output_predecessor_raw_witness :
    predTermWith netC7 (zfromE netC7 2) 3 (2, 5) = NExpr.mul 5 (zfromE netC7 2 2) :=
  ((reduced_space_output_predecessor_raw netC7 (by decide) (by decide)).2
    3 [(2, 5)] (by decide) (2, 5) (by decide) (by decide)).2 (zfromE netC7 2)

/-! Helper lemma for set_weights. -/

theorem set_weights_ok_iff (s : NNState) (w : List (ℕ × List (ℕ × ℚ)))
    (b : List (ℕ × ℚ)) (ni no nn : ℤ) :
    isOkE (set_weights s w b ni no nn) = true ↔
      (ni ≤ nn ∧ (w.length : ℤ) = nn + no - ni ∧ (b.length : ℤ) = nn + no - ni) := by
  unfold set_weights
  split_ifs with h1 h2 h3 <;> simp [isOkE] <;> omega

/-- C5: set_weights fails (assert in the source, ValidationError in the
specification's taxonomy) precisely when n_nodes < n_inputs or len(w) or
len(b) differs from n_nodes + n_outputs - n_inputs, and otherwise succeeds
and stores w, b and the dimension counts (the recomputed num_nodes equals
the validated n_nodes argument). -/
theorem set_weights_validation (s : NNState) (w : List (ℕ × List (ℕ × ℚ)))
    (b : List (ℕ × ℚ)) (ni no nn : ℤ) :
    (isOkE (set_weights s w b ni no nn) = false ↔
      (nn < ni ∨ (w.length : ℤ) ≠ nn + no - ni ∨ (b.length : ℤ) ≠ nn + no - ni)) ∧
    (∀ s', set_weights s w b ni no nn = Except.ok s' →
      s'.w = w ∧ s'.b = b ∧ s'.num_inputs = ni ∧ s'.num_outputs = no ∧
        s'.num_nodes = nn) := by
  constructor
  · have hiff := set_weights_ok_iff s w b ni no nn
    constructor
    · intro h
      rw [h] at hiff
      simp only [Bool.false_eq_true, false_iff] at hiff
      omega
    · intro h
      cases hok : isOkE (set_weights s w b ni no nn) with
      | false => rfl
      | true =>
        rw [hok] at hiff
        simp only [true_iff] at hiff
        omega
  · intro s' h
    unfold set_weights at h
    split_ifs at h with h1 h2 h3
    injection h with h4
    subst h4
    refine ⟨rfl, rfl, rfl, rfl, ?_⟩
    show (w.length : ℤ) - no + ni = nn
    omega

/-- Witness for C5: the call set_weights(w, b, 2, 1, 3) with len(w) =
len(b) = 2 on a fresh builder validates and stores the counts. -/
theorem set_weights_validation_witness :
    (isOkE (set_weights freshNNState [(1, [(0, 1)]), (2, [(1, 1)])]
        [(1, 0), (2, 0)] 2 1 3) = false ↔
      ((3 : ℤ) < 2 ∨ (2 : ℤ) ≠ 3 + 1 - 2 ∨ (2 : ℤ) ≠ 3 + 1 - 2)) ∧
    (∀ s', set_weights freshNNState [(1, [(0, 1)]), (2, [(1, 1)])]
        [(1, 0), (2, 0)] 2 1 3 = Except.ok s' →
      s'.w = [(1, [(0, 1)]), (2, [(1, 1)])] ∧ s'.b = [(1, 0), (2, 0)] ∧
        s'.num_inputs = 2 ∧ s'.num_outputs = 1 ∧ s'.num_nodes = 3) :=
  set_weights_validation freshNNState [(1, [(0, 1)]), (2, [(1, 1)])]
    [(1, 0), (2, 0)] 2 1 3

/-- C10: constructing either ReLU builder with any non-None leaky_alpha
raises NotImplementedError (the constructors receive no formulation model,
so no model state is touched), and with leaky_alpha = None construction
succeeds. -/
theorem relu_builders_leaky_alpha (bigm a : ℚ) (t : String) :
    isOkE (bigMReLU_init bigm (some a)) = false ∧
    isOkE (complementarityReLU_init (some a) t) = false ∧
    isOkE (bigMReLU_init bigm none) = true ∧
    isOkE (complementarityReLU_init none t) = true :=
  ⟨rfl, rfl, rfl, rfl⟩

/-- Witness for C10 at the default big-M value and transform name. -/
theorem relu_builders_leaky_alpha_witness :
    isOkE (bigMReLU_init 1000000 (some (1 / 100))) = false ∧
    isOkE (complementarityReLU_init (some (1 / 100)) "mpec.simple_nonlinear") = false ∧
    isOkE (bigMReLU_init 1000000 none) = true ∧
    isOkE (complementarityReLU_init none "mpec.simple_nonlinear") = true :=
  relu_builders_leaky_alpha 1000000 (1 / 100) "mpec.simple_nonlinear"

/-! Helper lemmas for the keras importer. -/

theorem layerEntries_length (nodeOff layerOff : ℕ) (l : KLayer) :
    (layerEntries nodeOff layerOff l).length = nLayerNodes l := by
  simp [layerEntries]

theorem importLoop_entries_cons (a b : ℕ) (l : KLayer) (rest : List KLayer) :
    (importLoop a b (l :: rest)).2.2.1 =
      layerEntries a b l ++
        (importLoop (a + nLayerNodes l) (b + nLayerInputs l) rest).2.2.1 := rfl

theorem importLoop_groups_cons (a b : ℕ) (l : KLayer) (rest : List KLayer) :
    (importLoop a b (l :: rest)).2.2.2 =
      List.range' a (nLayerNodes l) ::
        (importLoop (a + nLayerNodes l) (b + nLayerInputs l) rest).2.2.2 := rfl

theorem importLoop_entries_length (layers : List KLayer) :
    ∀ a b, (importLoop a b layers).2.2.1.length = totalLayerNodes layers := by
  induction layers with
  | nil => intro a b; simp [importLoop, totalLayerNodes]
  | cons l rest ih =>
    intro a b
    rw [importLoop_entries_cons, List.length_append, layerEntries_length, ih]
    simp [totalLayerNodes]

theorem importLoop_groups_length (layers : List KLayer) :
    ∀ a b, (importLoop a b layers).2.2.2.length = layers.length := by
  induction layers with
  | nil => intro a b; simp [importLoop]
  | cons l rest ih =>
    intro a b
    rw [importLoop_groups_cons, List.length_cons, ih]
    rfl

theorem getLastD_irrel {α : Type} (l : List α) (h : l ≠ []) (d1 d2 : α) :
    l.getLastD d1 = l.getLastD d2 := by
  cases l with
  | nil => cases h rfl
  | cons x xs =>
    cases xs with
    | nil => rfl
    | cons y ys =>
      conv_lhs => rw [List.getLastD_cons]
      conv_rhs => rw [List.getLastD_cons]

theorem last_le_total (layers : List KLayer) (h : layers ≠ []) :
    nLayerNodes (layers.getLastD default) ≤ totalLayerNodes layers := by
  induction layers with
  | nil => cases h rfl
  | cons l rest ih =>
    cases rest with
    | nil => simp [totalLayerNodes, List.getLastD]
    | cons l2 rest2 =>
      rw [List.getLastD_cons]
      rw [getLastD_irrel (l2 :: rest2) (List.cons_ne_nil l2 rest2) l default]
      have h2 := ih (List.cons_ne_nil l2 rest2)
      simp only [totalLayerNodes, List.map_cons, List.sum_cons] at h2 ⊢
      omega

theorem importLoop_groups_last (layers : List KLayer) (h : layers ≠ []) :
    ∀ a b, (importLoop a b layers).2.2.2.getLastD [] =
      List.range'
        (a + totalLayerNodes layers - nLayerNodes (layers.getLastD default))
        (nLayerNodes (layers.getLastD default)) := by
  induction layers with
  | nil => cases h rfl
  | cons l rest ih =>
    intro a b
    cases rest with
    | nil =>
      rw [importLoop_groups_cons]
      show List.range' a (nLayerNodes l) = _
      have hD : ((l :: []).getLastD default) = l := rfl
      rw [hD]
      have hT : totalLayerNodes (l :: []) = nLayerNodes l := by
        simp [totalLayerNodes]
      rw [hT]
      congr 1
      omega
    | cons l2 rest2 =>
      have h2 : (l2 :: rest2 : List KLayer) ≠ [] := List.cons_ne_nil l2 rest2
      rw [importLoop_groups_cons, List.getLastD_cons]
      have hne2 : (importLoop (a + nLayerNodes l) (b + nLayerInputs l)
          (l2 :: rest2)).2.2.2 ≠ [] := by
        intro hc
        have hlen := importLoop_groups_length (l2 :: rest2)
          (a + nLayerNodes l) (b + nLayerInputs l)
        rw [hc] at hlen
        simp at hlen
      rw [getLastD_irrel _ hne2 _ [], ih h2]
      have hK : nLayerNodes ((l :: l2 :: rest2).getLastD default)
          = nLayerNodes ((l2 :: rest2).getLastD default) := by
        rw [List.getLastD_cons, getLastD_irrel (l2 :: rest2) h2 l default]
      rw [hK]
      have hT : totalLayerNodes (l :: l2 :: rest2)
          = nLayerNodes l + totalLayerNodes (l2 :: rest2) := by
        simp [totalLayerNodes]
      rw [hT]
      congr 1
      omega

/-- C8: the importer's total produced node count (n_nodes = len(a) +
n_inputs) equals the original input count plus the sum of all layer output
sizes; for a well-formed final layer (bias length equal to the weight
matrix's column count) the final layer's produced ids are exactly the
designated trailing output block; and one dense layer of shape (3, 2) with
activation linear yields n_inputs = 3, n_outputs = 2, n_hidden = 0. -/
theorem keras_importer_counts :
    (∀ layers : List KLayer,
      (load_keras_sequential layers).entries.length
          + (load_keras_sequential layers).n_inputs
        = nLayerInputs layers.headI + totalLayerNodes layers) ∧
    (∀ layers : List KLayer, layers ≠ [] →
      (layers.getLastD default).biases.length
          = nLayerNodes (layers.getLastD default) →
      lastLayerIds layers =
        List.range'
          ((load_keras_sequential layers).entries.length
              + (load_keras_sequential layers).n_inputs
              - (load_keras_sequential layers).n_outputs)
          (load_keras_sequential layers).n_outputs) ∧
    ((load_keras_sequential layersD).n_inputs = 3 ∧
      (load_keras_sequential layersD).n_outputs = 2 ∧
      (load_keras_sequential layersD).n_hidden = 0) := by
  refine ⟨?_, ?_, ?_⟩
  · intro layers
    simp only [load_keras_sequential]
    rw [importLoop_entries_length]
    omega
  · intro layers hne hb
    unfold lastLayerIds
    rw [importLoop_groups_last layers hne]
    simp only [load_keras_sequential]
    rw [importLoop_entries_length, hb]
    congr 1
    have hle := last_le_total layers hne
    omega
  · refine ⟨rfl, rfl, rfl⟩

/-- Witness for C8: the shape-(3,2) layer instantiates the trailing-block
part of the theorem, the hypotheses holding by evaluation. -/
theorem keras_importer_counts_witness :
    lastLayerIds layersD =
      List.range'
        ((load_keras_sequential layersD).entries.length
            + (load_keras_sequential layersD).n_inputs
            - (load_keras_sequential layersD).n_outputs)
        (load_keras_sequential layersD).n_outputs :=
  keras_importer_counts.2.1 layersD (List.cons_ne_nil _ _) (by decide)

/-- C9: on a freshly constructed builder the stale zero counts make
set_weights_keras pass n_nodes = len(w), so the call succeeds exactly when
the keras model's output count equals its input count (for well-formed
final layers). -/
theorem set_weights_keras_stale_counts (layers : List KLayer) (hne : layers ≠ [])
    (hb : (layers.getLastD default).biases.length
      = nLayerNodes (layers.getLastD default)) :
    isOkE (set_weights_keras freshNNState layers) = true ↔
      kerasLastWeightLen layers = kerasFirstWeightLen layers := by
  have hw1 : (kerasSequentialToDict layers).1.length = totalLayerNodes layers := by
    simp [kerasSequentialToDict, importLoop_entries_length]
  have hb1 : (kerasSequentialToDict layers).2.length = totalLayerNodes layers := by
    simp [kerasSequentialToDict, importLoop_entries_length]
  have hle := last_le_total layers hne
  simp only [set_weights_keras]
  rw [set_weights_ok_iff, hw1, hb1]
  simp only [freshNNState, kerasLastWeightLen, kerasFirstWeightLen] at *
  constructor
  · rintro ⟨hla, hlb, hlc⟩
    omega
  · intro heq
    refine ⟨?_, ?_, ?_⟩ <;> omega

/-- Witness for C9: a single square dense layer (2 inputs, 2 outputs)
instantiates the equivalence, the hypotheses holding by evaluation. -/
theorem set_weights_keras_stale_counts_witness :
    isOkE (set_weights_keras freshNNState layersSquare) = true ↔
      kerasLastWeightLen layersSquare = kerasFirstWeightLen layersSquare :=
  set_weights_keras_stale_counts layersSquare (List.cons_ne_nil _ _) (by decide)

/-! Helper lemmas for the two optml ReLU builders. -/

theorem build_mip_isOk (acts : ℕ → ActEntry) (nodes : List ℕ) :
    isOkE (build_relu_mip_formulation acts nodes)
      = isOkE (classifyLoopStrict acts nodes) := by
  cases h : classifyLoopStrict acts nodes <;>
    simp [build_relu_mip_formulation, h, isOkE]

theorem classifyLoopStrict_isOk (acts : ℕ → ActEntry) :
    ∀ nodes : List ℕ, isOkE (classifyLoopStrict acts nodes)
      = nodes.all (fun i => !(classifyActivation (acts i) == NodeClass.other)) := by
  intro nodes
  induction nodes with
  | nil => rfl
  | cons j rest ih =>
    rw [classifyLoopStrict, List.all_cons, ← ih]
    cases hcl : classifyActivation (acts j) <;>
      cases hr : classifyLoopStrict acts rest <;>
      simp [isOkE, hr]

theorem classifyLoop3_nonlinear_mem (acts : ℕ → ActEntry) :
    ∀ (nodes : List ℕ) (i : ℕ), i ∈ (classifyLoop3 acts nodes).2.2 ↔
      i ∈ nodes ∧ classifyActivation (acts i) = NodeClass.other := by
  intro nodes i
  induction nodes with
  | nil => simp [classifyLoop3]
  | cons j rest ih =>
    rw [classifyLoop3]
    cases hcl : classifyActivation (acts j) with
    | linear =>
      simp only [List.mem_cons]
      constructor
      · intro hm
        have hmr := ih.mp hm
        exact ⟨Or.inr hmr.1, hmr.2⟩
      · rintro ⟨hj | hr2, ho⟩
        · subst hj
          rw [hcl] at ho
          exact NodeClass.noConfusion ho
        · exact ih.mpr ⟨hr2, ho⟩
    | relu =>
      simp only [List.mem_cons]
      constructor
      · intro hm
        have hmr := ih.mp hm
        exact ⟨Or.inr hmr.1, hmr.2⟩
      · rintro ⟨hj | hr2, ho⟩
        · subst hj
          rw [hcl] at ho
          exact NodeClass.noConfusion ho
        · exact ih.mpr ⟨hr2, ho⟩
    | other =>
      simp only [List.mem_cons]
      constructor
      · intro hm
        rcases hm with rfl | hm2
        · exact ⟨Or.inl rfl, hcl⟩
        · have hmr := ih.mp hm2
          exact ⟨Or.inr hmr.1, hmr.2⟩
      · rintro ⟨hj | hr2, ho⟩
        · subst hj
          exact Or.inl rfl
        · exact Or.inr (ih.mpr ⟨hr2, ho⟩)

theorem mapME_isOk {α β : Type} (f : α → Except String β) :
    ∀ l : List α, isOkE (mapME f l) = l.all (fun a => isOkE (f a)) := by
  intro l
  induction l with
  | nil => rfl
  | cons a rest ih =>
    rw [mapME, List.all_cons, ← ih]
    cases hf : f a <;> cases hr : mapME f rest <;> simp [isOkE, hf, hr]

theorem mapME_ok_mem {α β : Type} (f : α → Except String β) :
    ∀ (l : List α) (bs : List β), mapME f l = Except.ok bs →
      ∀ a ∈ l, ∃ b, f a = Except.ok b ∧ b ∈ bs := by
  intro l
  induction l with
  | nil =>
    intro bs h a ha
    simp at ha
  | cons a' rest ih =>
    intro bs h a ha
    rw [mapME] at h
    cases hf : f a' with
    | error e =>
      simp only [hf] at h
      exact Except.noConfusion h
    | ok b =>
      rw [hf] at h
      cases hr : mapME f rest with
      | error e =>
        simp only [hr] at h
        exact Except.noConfusion h
      | ok bs' =>
        rw [hr] at h
        injection h with h2
        subst h2
        rcases List.mem_cons.mp ha with rfl | ha2
        · exact ⟨b, hf, List.mem_cons_self b bs'⟩
        · obtain ⟨b2, hb2, hmem⟩ := ih bs' hr a ha2
          exact ⟨b2, hb2, List.mem_cons_of_mem b hmem⟩

theorem nonlinearConstraint_isOk (acts : ℕ → ActEntry)
    (lni : ℕ → Option (List ℕ)) (i : ℕ)
    (h : classifyActivation (acts i) = NodeClass.other) :
    isOkE (nonlinearActivationConstraint acts lni i) = !(compNodeRaises acts i) := by
  cases ha : acts i with
  | absent => simp [classifyActivation, ha] at h
  | noneV => simp [classifyActivation, ha] at h
  | strV s =>
    by_cases h1 : s = "linear"
    · simp [classifyActivation, ha, h1] at h
    by_cases h2 : s = "relu"
    · simp [classifyActivation, ha, h1, h2] at h
    simp only [nonlinearActivationConstraint, compNodeRaises, ha, if_neg h1, if_neg h2]
    cases hl : lookupA s pyomo_activations <;> simp [isOkE, hl]
  | fnV f =>
    simp [nonlinearActivationConstraint, compNodeRaises, ha, isOkE]

theorem compNodeRaises_other (acts : ℕ → ActEntry) (i : ℕ)
    (h : compNodeRaises acts i = true) :
    classifyActivation (acts i) = NodeClass.other := by
  cases ha : acts i with
  | absent => simp [compNodeRaises, ha] at h
  | noneV => simp [compNodeRaises, ha] at h
  | fnV f => simp [compNodeRaises, ha] at h
  | strV s =>
    simp only [compNodeRaises, ha] at h
    by_cases h1 : s = "linear"
    · simp [h1] at h
    by_cases h2 : s = "relu"
    · simp [h1, h2] at h
    simp [classifyActivation, ha, h1, h2]

theorem nonlinearConstraint_ok_shape (acts : ℕ → ActEntry)
    (lni : ℕ → Option (List ℕ)) (i : ℕ) (c : NNConstraint)
    (h : nonlinearActivationConstraint acts lni i = Except.ok c) :
    ∃ f, c = NNConstraint.nonlinearEq i f ((lni i).getD []) := by
  cases ha : acts i with
  | absent => simp [nonlinearActivationConstraint, ha] at h
  | noneV => simp [nonlinearActivationConstraint, ha] at h
  | strV s =>
    simp only [nonlinearActivationConstraint, ha] at h
    cases hl : lookupA s pyomo_activations with
    | none =>
      simp only [hl] at h
      exact Except.noConfusion h
    | some f =>
      simp only [hl] at h
      injection h with h2
      exact ⟨f, h2.symm⟩
  | fnV f =>
    simp only [nonlinearActivationConstraint, ha] at h
    injection h with h2
    exact ⟨AFun.custom f, h2.symm⟩

theorem build_comp_isOk (acts : ℕ → ActEntry) (lni : ℕ → Option (List ℕ))
    (nodes : List ℕ) :
    isOkE (build_relu_complementarity_formulation acts lni nodes)
      = isOkE (mapME (nonlinearActivationConstraint acts lni)
          (classifyLoop3 acts nodes).2.2) := by
  cases h : mapME (nonlinearActivationConstraint acts lni)
      (classifyLoop3 acts nodes).2.2 <;>
    simp [build_relu_complementarity_formulation, h, isOkE]

theorem build_comp_ok_parts (acts : ℕ → ActEntry) (lni : ℕ → Option (List ℕ))
    (nodes : List ℕ) (cs : List NNConstraint)
    (h : build_relu_complementarity_formulation acts lni nodes = Except.ok cs) :
    ∃ ncs, mapME (nonlinearActivationConstraint acts lni)
        (classifyLoop3 acts nodes).2.2 = Except.ok ncs ∧
      ∀ c ∈ ncs, c ∈ cs := by
  unfold build_relu_complementarity_formulation at h
  cases hm : mapME (nonlinearActivationConstraint acts lni)
      (classifyLoop3 acts nodes).2.2 with
  | error e =>
    simp only [hm] at h
    exact Except.noConfusion h
  | ok ncs =>
    simp only [hm] at h
    injection h with h2
    refine ⟨ncs, rfl, ?_⟩
    intro c hc
    rw [← h2]
    exact List.mem_append_right _ hc

/-- C4 amended: the Big-M builder raises an unsupported-activation error
exactly when some candidate node's activation is neither linear/absent nor
relu; the complementarity builder raises exactly when some candidate node's
activation is a string outside pyomo_activations that is neither linear nor
relu (for callables and the known closed-form names it does not raise); and
whenever it succeeds, every node classified other receives a closed-form
nonlinear constraint z = f(zhat, sibling zhats) from the generic nonlinear
encoder. -/
theorem relu_builders_other_asymmetry (acts : ℕ → ActEntry)
    (lni : ℕ → Option (List ℕ)) (nodes : List ℕ) :
    (isOkE (build_relu_mip_formulation acts nodes) = false ↔
      ∃ i ∈ nodes, classifyActivation (acts i) = NodeClass.other) ∧
    (isOkE (build_relu_complementarity_formulation acts lni nodes) = false ↔
      ∃ i ∈ nodes, compNodeRaises acts i = true) ∧
    (∀ cs, build_relu_complementarity_formulation acts lni nodes = Except.ok cs →
      ∀ i ∈ nodes, classifyActivation (acts i) = NodeClass.other →
        ∃ f, NNConstraint.nonlinearEq i f ((lni i).getD []) ∈ cs) := by
  refine ⟨?_, ?_, ?_⟩
  · rw [build_mip_isOk, classifyLoopStrict_isOk, List.all_eq_false]
    simp
  · rw [build_comp_isOk, mapME_isOk, List.all_eq_false]
    constructor
    · rintro ⟨a, ha, hfa⟩
      have hcl := (classifyLoop3_nonlinear_mem acts nodes a).mp ha
      rw [nonlinearConstraint_isOk acts lni a hcl.2] at hfa
      refine ⟨a, hcl.1, ?_⟩
      simpa using hfa
    · rintro ⟨i, hi, hr⟩
      have ho := compNodeRaises_other acts i hr
      have hmem := (classifyLoop3_nonlinear_mem acts nodes i).mpr ⟨hi, ho⟩
      refine ⟨i, hmem, ?_⟩
      rw [nonlinearConstraint_isOk acts lni i ho, hr]
      simp
  · intro cs hcs i hi ho
    obtain ⟨ncs, hm, hsub⟩ := build_comp_ok_parts acts lni nodes cs hcs
    have hmem := (classifyLoop3_nonlinear_mem acts nodes i).mpr ⟨hi, ho⟩
    obtain ⟨b, hb, hbmem⟩ := mapME_ok_mem _ _ ncs hm i hmem
    obtain ⟨f, hf⟩ := nonlinearConstraint_ok_shape acts lni i b hb
    refine ⟨f, ?_⟩
    rw [← hf]
    exact hsub b hbmem

/-- Witness for C4: with node 1 relu, node 2 tanh (other, supported) and
node 3 linear, the amended characterization instantiates. -/
theorem relu_builders_other_asymmetry_witness :
    (isOkE (build_relu_mip_formulation actsMix [1, 2, 3]) = false ↔
      ∃ i ∈ [1, 2, 3], classifyActivation (actsMix i) = NodeClass.other) ∧
    (isOkE (build_relu_complementarity_formulation actsMix noLayerIds [1, 2, 3]) = false ↔
      ∃ i ∈ [1, 2, 3], compNodeRaises actsMix i = true) ∧
    (∀ cs, build_relu_complementarity_formulation actsMix noLayerIds [1, 2, 3]
        = Except.ok cs →
      ∀ i ∈ [1, 2, 3], classifyActivation (actsMix i) = NodeClass.other →
        ∃ f, NNConstraint.nonlinearEq i f ((noLayerIds i).getD []) ∈ cs) :=
  relu_builders_other_asymmetry actsMix noLayerIds [1, 2, 3]

/-- C4 as stated fails: on the single candidate node 1 with activation
gelu (classified other) the Big-M builder raises as claimed, but the
complementarity builder raises too (KeyError on the pyomo_activations
lookup) instead of emitting a closed-form constraint. -/
theorem complementarity_raises_on_unknown_string :
    classifyActivation (actsGelu 1) = NodeClass.other ∧
    isOkE (build_relu_mip_formulation actsGelu [1]) = false ∧
    isOkE (build_relu_complementarity_formulation actsGelu noLayerIds [1]) = false := by
  refine ⟨by decide, by decide, by decide⟩

end OptML
